import Mathlib

/-!
Verification of the TaT dashboard ingestion pipeline (src/src/App.tsx).

The core pipeline is embedded shallowly:
* a JavaScript timestamp is an integer count of milliseconds since the Unix
  epoch (a valid JS Date holds an integer time value, produced by TimeClip);
* a raw spreadsheet cell is a `CellValue` (native date, number, string,
  boolean, or null — the shapes `sheet_to_json` with cellDates can produce);
* host behaviour that the program delegates to the JavaScript runtime
  (generic `new Date(string)` parsing, `Number(string)` coercion, local-time
  `new Date(y, m, d)` construction, `String(...)` coercion of numbers and
  dates, and the local-time `getHours`) is a parameter record `JsEnv`:
  every theorem quantifies over it, so nothing depends on a particular host;
* numbers in cells are exact rationals (IEEE rounding is out of scope).
-/

namespace TaT

/-- Raw cell values as delivered by sheet_to_json with cellDates and
defval null. A valid native Date carries its integer time value; an
invalid Date (NaN time value) is its own constructor. -/
inductive CellValue where
  | null : CellValue
  | str (s : String) : CellValue
  | num (q : ℚ) : CellValue
  | date (ms : ℤ) : CellValue
  | invalidDate : CellValue
  | bool (b : Bool) : CellValue
deriving DecidableEq

/-- One raw data row, restricted to the six required columns the row
transformer reads (كود المريض, اسم المستخدم, اسم الطبيب, تاريخ الإرسال,
تاريخ التسليم, تاريخ الموافقة). -/
structure RawRow where
  patientCode : CellValue
  userName : CellValue
  doctorName : CellValue
  sentDate : CellValue
  deliveredDate : CellValue
  approvedDate : CellValue
deriving DecidableEq

/-- ParsedRow from App.tsx: a validated record. Dates are JS timestamps
in milliseconds; durations are whole minutes. -/
structure ParsedRow where
  patientCode : String
  userName : String
  doctorName : String
  sentDate : ℤ
  deliveredDate : ℤ
  approvedDate : ℤ
  waitingTime : ℤ
  handlingTime : ℤ
  totalTat : ℤ
deriving DecidableEq

/-- AgentMetrics from App.tsx. Averages and percentages are rationals. -/
structure AgentMetrics where
  userName : String
  totalRequests : ℕ
  averageHandlingTime : ℚ
  handlingSla : ℚ
deriving DecidableEq

/-- One entry of the 24-bucket hour histogram and of peakHours. -/
structure PeakEntry where
  hour : ℕ
  count : ℕ
deriving DecidableEq

/-- TeamMetrics from App.tsx. -/
structure TeamMetrics where
  averageWaitingTime : ℚ
  assignmentSla : ℚ
  peakHours : List PeakEntry
deriving DecidableEq

/-- Host (JavaScript runtime) behaviour the pipeline delegates to.
toNumber returns some q only when Number(s) is a finite number; NaN and
the infinities are none (a Date built from them is invalid).
mkLocalDate is new Date(year, monthIndex, day) in the local zone of the host,
none when the resulting Date is invalid. getHours is local-time
Date.prototype.getHours, always in 0..23. -/
structure JsEnv where
  genericDateParse : String → Option ℤ
  toNumber : String → Option ℚ
  mkLocalDate : ℚ → ℚ → ℚ → Option ℤ
  numToString : ℚ → String
  dateToString : ℤ → String
  invalidDateToString : String
  boolToString : Bool → String
  getHours : ℤ → Fin 24

/-- Characters treated as WhiteSpace or LineTerminator by
String.prototype.trim. -/
def isJsWhitespace (c : Char) : Bool :=
  c.toNat = 0x9 ∨ c.toNat = 0xA ∨ c.toNat = 0xB ∨ c.toNat = 0xC ∨
  c.toNat = 0xD ∨ c.toNat = 0x20 ∨ c.toNat = 0xA0 ∨ c.toNat = 0x1680 ∨
  (0x2000 ≤ c.toNat ∧ c.toNat ≤ 0x200A) ∨ c.toNat = 0x2028 ∨
  c.toNat = 0x2029 ∨ c.toNat = 0x202F ∨ c.toNat = 0x205F ∨
  c.toNat = 0x3000 ∨ c.toNat = 0xFEFF

/-- Drop leading and trailing whitespace from a character list. -/
def jsTrimList (l : List Char) : List Char :=
  ((l.dropWhile isJsWhitespace).reverse.dropWhile isJsWhitespace).reverse

/-- String.prototype.trim. -/
def jsTrim (s : String) : String :=
  String.mk (jsTrimList s.data)

/-- The ten characters matched by the regular expression class [٠-٩],
i.e. U+0660 through U+0669 in order. -/
def arabicIndicDigits : List Char :=
  ['٠', '١', '٢', '٣', '٤', '٥', '٦', '٧', '٨', '٩']

/-- arabicDigitMap from App.tsx: Arabic-Indic digit to ASCII digit. -/
def arabicDigitMap : Char → Option Char
  | '٠' => some '0'
  | '١' => some '1'
  | '٢' => some '2'
  | '٣' => some '3'
  | '٤' => some '4'
  | '٥' => some '5'
  | '٦' => some '6'
  | '٧' => some '7'
  | '٨' => some '8'
  | '٩' => some '9'
  | _ => none

/-- Replacement applied to each character matched by /[٠-٩]/g; the
?? digit fallback of the source is the getD. -/
def replaceDigitChar (c : Char) : Char :=
  if c ∈ arabicIndicDigits then (arabicDigitMap c).getD c else c

/-- normalizeDigits from App.tsx. -/
def normalizeDigits (s : String) : String :=
  String.mk (s.data.map replaceDigitChar)

/-- Date.UTC(1899, 11, 30): midnight December 30, 1899 UTC, in
milliseconds since the Unix epoch. -/
def excelEpochMs : ℤ := -2209161600000

/-- Largest absolute time value a JS Date can hold (TimeClip bound). -/
def maxTimeMs : ℤ := 8640000000000000

/-- ToIntegerOrInfinity on a finite number: truncation toward zero. -/
def jsTrunc (q : ℚ) : ℤ :=
  if 0 ≤ q then ⌊q⌋ else ⌈q⌉

/-- TimeClip: a time value of absolute value beyond 8.64e15 ms makes the
Date invalid (none); otherwise the value is truncated to an integer. -/
def timeClip (q : ℚ) : Option ℤ :=
  if |q| ≤ (maxTimeMs : ℚ) then some (jsTrunc q) else none

/-- Fallback branch of parseDate after the generic parse failed: test for
a /, - or . separator, split on the separators, interpret the first three
parts as day, month, year and build a local date. Number coercion and
local Date construction are host behaviour (env). -/
def parseNormalized (env : JsEnv) (normalized : String) : Option ℤ :=
  match env.genericDateParse normalized with
  | some t => some t
  | none =>
    if normalized.data.any (fun c => c = '/' ∨ c = '-' ∨ c = '.') then
      let parts := (normalized.split (fun c => c = '/' ∨ c = '-' ∨ c = '.')).map jsTrim
      match parts with
      | day :: month :: year :: _ =>
        match env.toNumber day, env.toNumber month, env.toNumber year with
        | some d, some m, some y => env.mkLocalDate y (m - 1) d
        | _, _, _ => none
      | _ => none
    else none

/-- parseDate from App.tsx. A valid native Date is returned unchanged; a
number is a day count from the 1899-12-30 epoch; a string is trimmed,
digit-normalized, then parsed generically with a day/month/year split
fallback; anything else is unparseable. -/
def parseDate (env : JsEnv) : CellValue → Option ℤ
  | .date ms => some ms
  | .num v => timeClip ((excelEpochMs : ℚ) + v * (24 * 60 * 60 * 1000))
  | .str s =>
    let normalized := normalizeDigits (jsTrim s)
    if normalized = "" then none
    else parseNormalized env normalized
  | .invalidDate => none
  | .bool _ => none
  | .null => none

/-- minutesBetween from App.tsx. diff = (end - start) / 60000 minutes is
rejected when negative (an integer difference is always finite);
otherwise Math.round(diff) = floor(diff + 1/2) is returned, which on a
non-negative diff is (delta + 30000) / 60000 in floor division. -/
def minutesBetween (start endTime : ℤ) : Option ℤ :=
  let delta := endTime - start
  if delta < 0 then none
  else some ((delta + 30000) / 60000)

/-- Math.round on a non-negative rational: floor of x + 1/2. -/
def jsRound (x : ℚ) : ℤ :=
  ⌊x + 1 / 2⌋

/-- String(cell ?? "") coercion of a cell value. -/
def jsStringOfCell (env : JsEnv) : CellValue → String
  | .null => ""
  | .str s => s
  | .num q => env.numToString q
  | .date ms => env.dateToString ms
  | .invalidDate => env.invalidDateToString
  | .bool b => env.boolToString b

/-- The rows.forEach body of handleFileChange for one row: coerce and
trim the three text fields, normalize the three date fields, skip (none)
when any is missing or unparseable, compute the three durations, skip
when any fails, otherwise emit the validated record. -/
def processRow (env : JsEnv) (row : RawRow) : Option ParsedRow :=
  let patientCode := jsTrim (jsStringOfCell env row.patientCode)
  let userName := jsTrim (jsStringOfCell env row.userName)
  let doctorName := jsTrim (jsStringOfCell env row.doctorName)
  if patientCode = "" ∨ userName = "" ∨ doctorName = "" then none
  else
    match parseDate env row.sentDate, parseDate env row.deliveredDate,
        parseDate env row.approvedDate with
    | some sent, some delivered, some approved =>
      match minutesBetween sent delivered, minutesBetween delivered approved,
          minutesBetween sent approved with
      | some waitingTime, some handlingTime, some totalTat =>
        some { patientCode := patientCode, userName := userName,
               doctorName := doctorName, sentDate := sent,
               deliveredDate := delivered, approvedDate := approved,
               waitingTime := waitingTime, handlingTime := handlingTime,
               totalTat := totalTat }
      | _, _, _ => none
    | _, _, _ => none

/-- The full rows.forEach loop: accumulate the parsed records in order
and count the skipped rows. -/
def processRows (env : JsEnv) (rows : List RawRow) : List ParsedRow × ℕ :=
  rows.foldl
    (fun acc row =>
      match processRow env row with
      | some r => (acc.1 ++ [r], acc.2)
      | none => (acc.1, acc.2 + 1))
    ([], 0)

/-- Per-agent accumulator of the agentMap. -/
structure AgentAcc where
  total : ℕ
  handlingSum : ℤ
  handlingSlaCount : ℕ
deriving DecidableEq

/-- Map.prototype.set on an insertion-ordered association list: replace
the value at an existing key in place, otherwise append the new entry. -/
def mapSet (m : List (String × AgentAcc)) (k : String) (v : AgentAcc) :
    List (String × AgentAcc) :=
  match m with
  | [] => [(k, v)]
  | (k0, v0) :: rest =>
    if k0 = k then (k, v) :: rest else (k0, v0) :: mapSet rest k v

/-- One step of the agent accumulation in parsed.forEach: fetch the
accumulator of the agent (or the zero accumulator), bump the counters, store
it back. -/
def stepAgent (m : List (String × AgentAcc)) (row : ParsedRow) :
    List (String × AgentAcc) :=
  let agent := (m.lookup row.userName).getD
    { total := 0, handlingSum := 0, handlingSlaCount := 0 }
  mapSet m row.userName
    { total := agent.total + 1,
      handlingSum := agent.handlingSum + row.handlingTime,
      handlingSlaCount :=
        agent.handlingSlaCount + (if row.handlingTime ≤ 20 then 1 else 0) }

/-- The agentMap after the parsed.forEach loop. -/
def buildAgentMap (parsed : List ParsedRow) : List (String × AgentAcc) :=
  parsed.foldl stepAgent []

/-- agentMetrics of handleFileChange: finalize each accumulator and sort
descending by totalRequests (a stable sort, as Array.prototype.sort). -/
def computeAgents (parsed : List ParsedRow) : List AgentMetrics :=
  let metrics := (buildAgentMap parsed).map fun e =>
    { userName := e.1, totalRequests := e.2.total,
      averageHandlingTime := (e.2.handlingSum : ℚ) / (e.2.total : ℚ),
      handlingSla := ((e.2.handlingSlaCount : ℚ) / (e.2.total : ℚ)) * 100
      : AgentMetrics }
  metrics.mergeSort (fun a b => decide (b.totalRequests ≤ a.totalRequests))

/-- Increment one bucket of the 24-hour histogram. -/
def bumpHour (hist : Fin 24 → ℕ) (h : Fin 24) : Fin 24 → ℕ :=
  fun i => if i = h then hist i + 1 else hist i

/-- The peakHours histogram after parsed.forEach: one bucket per hour of
day of sentDate (local time, via env.getHours). -/
def buildHist (env : JsEnv) (parsed : List ParsedRow) : Fin 24 → ℕ :=
  parsed.foldl (fun hist row => bumpHour hist (env.getHours row.sentDate))
    (fun _ => 0)

/-- The 24-entry peakHours array in hour order, as built by
Array.from followed by the counting loop. -/
def peakHoursAll (hist : Fin 24 → ℕ) : List PeakEntry :=
  (List.finRange 24).map fun h => { hour := h.val, count := hist h }

/-- topHours of handleFileChange: sort the 24 buckets descending by
count (stable), take the first 3, drop zero counts. -/
def topHours (env : JsEnv) (parsed : List ParsedRow) : List PeakEntry :=
  (((peakHoursAll (buildHist env parsed)).mergeSort
      (fun a b => decide (b.count ≤ a.count))).take 3).filter
    (fun item => decide (0 < item.count))

/-- teamStats of handleFileChange. The waiting sum and SLA count are the
same forEach accumulations, written as a sum and a count over the list
(the loop only adds one term per record). -/
def computeTeam (env : JsEnv) (parsed : List ParsedRow) : TeamMetrics :=
  { averageWaitingTime :=
      ((parsed.map (fun r => r.waitingTime)).sum : ℚ) / (parsed.length : ℚ),
    assignmentSla :=
      ((parsed.countP (fun r => decide (r.waitingTime ≤ 10)) : ℚ) /
        (parsed.length : ℚ)) * 100,
    peakHours := topHours env parsed }

/-- The state published on success: parsedRows, agents, teamMetrics and
skippedCount as set by the four setters at the end of handleFileChange. -/
structure PipelineOutput where
  parsedRows : List ParsedRow
  agents : List AgentMetrics
  teamMetrics : TeamMetrics
  skippedCount : ℕ

/-- Message of the fatal no-valid-rows error in handleFileChange. -/
def noValidRowsMsg : String :=
  "لم يتم العثور على صفوف صالحة بعد التحقق من البيانات."

/-- The run from the raw data rows on: process every row, fail fatally
when no row validated, otherwise publish the full output. The earlier
fatal checks (missing sheet, no rows, missing columns) abort before this
point and are upstream of this function. -/
def runRows (env : JsEnv) (rows : List RawRow) :
    Except String PipelineOutput :=
  let processed := processRows env rows
  if processed.1.isEmpty then .error noValidRowsMsg
  else .ok { parsedRows := processed.1,
             agents := computeAgents processed.1,
             teamMetrics := computeTeam env processed.1,
             skippedCount := processed.2 }

/-- Concrete host environment used for closed witness statements; the
rows fed to it never consult the interesting fields. -/
def probeEnv : JsEnv :=
  { genericDateParse := fun _ => none,
    toNumber := fun _ => none,
    mkLocalDate := fun _ _ _ => none,
    numToString := fun _ => "0",
    dateToString := fun _ => "date",
    invalidDateToString := "Invalid Date",
    boolToString := fun b => if b then "true" else "false",
    getHours := fun _ => 0 }

/-! ### Duration calculator arithmetic -/

/-- Floor division by 60000 after adding the half-unit 30000 computes
Math.round of the exact rational quotient, for a non-negative numerator. -/
theorem round_div_60000 (d : ℤ) :
    (d + 30000) / 60000 = jsRound ((d : ℚ) / 60000) := by
  unfold jsRound
  have h : (d : ℚ) / 60000 + 1 / 2 = ((d + 30000 : ℤ) : ℚ) / ((60000 : ℕ) : ℚ) := by
    push_cast
    ring
  rw [h, Rat.floor_intCast_div_natCast]
  norm_num

/-- Independent rounding of two adjacent intervals and of their union
differ by at most one minute. -/
theorem round_sum_bound (x y : ℤ) :
    ((x + y + 30000) / 60000 - ((x + 30000) / 60000 + (y + 30000) / 60000)).natAbs ≤ 1 := by
  omega

/-- C3: for canonical timestamps with endTime ≥ start, minutesBetween
returns round of the exact millisecond difference divided by 60000; for
endTime < start it fails; and whenever it returns a value, that value is
non-negative. -/
theorem c3_minutes_between_spec (start endTime : ℤ) :
    (start ≤ endTime →
      minutesBetween start endTime = some (jsRound (((endTime - start : ℤ) : ℚ) / 60000))) ∧
    (endTime < start → minutesBetween start endTime = none) ∧
    (∀ m : ℤ, minutesBetween start endTime = some m → 0 ≤ m) := by
  refine ⟨fun hle => ?_, fun hlt => ?_, fun m hm => ?_⟩
  · rw [minutesBetween, if_neg (by omega), round_div_60000]
  · rw [minutesBetween, if_pos (by omega)]
  · rw [minutesBetween] at hm
    by_cases h : endTime - start < 0
    · rw [if_pos h] at hm
      exact absurd hm (by simp)
    · rw [if_neg h] at hm
      have := Option.some.inj hm
      omega

/-- C3 witness: 90000 ms round to 2 minutes (the exact quotient is 1.5),
and a reversed interval fails. -/
theorem c3_minutes_between_spec_witness :
    minutesBetween 0 90000 = some (jsRound (((90000 - 0 : ℤ) : ℚ) / 60000)) ∧
    minutesBetween 10 0 = none ∧
    (0 : ℤ) ≤ 2 ∧ minutesBetween 0 90000 = some 2 := by
  refine ⟨(c3_minutes_between_spec 0 90000).1 (by norm_num), ?_, ?_, ?_⟩
  · exact (c3_minutes_between_spec 10 0).2.1 (by norm_num)
  · exact (c3_minutes_between_spec 0 90000).2.2 2 (by decide)
  · decide

/-! ### Row transformer: emitted durations -/

/-- Every emitted record stores exactly the three durations computed by
minutesBetween on its own stored timestamps. -/
theorem processRow_durations (env : JsEnv) (row : RawRow) (r : ParsedRow)
    (h : processRow env row = some r) :
    minutesBetween r.sentDate r.deliveredDate = some r.waitingTime ∧
    minutesBetween r.deliveredDate r.approvedDate = some r.handlingTime ∧
    minutesBetween r.sentDate r.approvedDate = some r.totalTat := by
  simp only [processRow] at h
  split at h
  · simp at h
  · split at h <;> try simp at h
    split at h <;> try simp at h
    obtain rfl : _ = r := h
    refine ⟨?_, ?_, ?_⟩ <;> assumption

/-- Helper row for the C1 counterexample and witness: valid texts, and
native dates 0 ms, 40000 ms, 80000 ms (both gaps are 40 s). -/
def c1Row : RawRow :=
  { patientCode := .str "a", userName := .str "b", doctorName := .str "c",
    sentDate := .date 0, deliveredDate := .date 40000,
    approvedDate := .date 80000 }

/-- Record emitted for c1Row: each 40 s gap rounds up to 1 minute while
the 80 s total rounds down to 1 minute. -/
def c1Rec : ParsedRow :=
  { patientCode := "a", userName := "b", doctorName := "c",
    sentDate := 0, deliveredDate := 40000, approvedDate := 80000,
    waitingTime := 1, handlingTime := 1, totalTat := 1 }

/-- C1 counterexample: the row transformer emits a validated record
whose totalTurnaround (1) differs from waitingTime + handlingTime
(1 + 1 = 2), because the three durations are rounded independently. -/
theorem c1_invariant_counterexample :
    processRow probeEnv c1Row = some c1Rec ∧
    c1Rec.totalTat ≠ c1Rec.waitingTime + c1Rec.handlingTime := by
  exact ⟨by decide, by decide⟩

/-- C1 (amended): for every ValidatedRecord emitted by the row
transformer, the three stored durations are the minutesBetween roundings
of its timestamp gaps, and totalTurnaround differs from
waitingTime + handlingTime by at most one minute (exact equality fails
because each duration is rounded independently). -/
theorem c1_turnaround_additivity (env : JsEnv) (row : RawRow) (r : ParsedRow)
    (h : processRow env row = some r) :
    minutesBetween r.sentDate r.deliveredDate = some r.waitingTime ∧
    minutesBetween r.deliveredDate r.approvedDate = some r.handlingTime ∧
    minutesBetween r.sentDate r.approvedDate = some r.totalTat ∧
    (r.totalTat - (r.waitingTime + r.handlingTime)).natAbs ≤ 1 := by
  obtain ⟨h1, h2, h3⟩ := processRow_durations env row r h
  refine ⟨h1, h2, h3, ?_⟩
  rw [minutesBetween] at h1 h2 h3
  split at h1
  · exact absurd h1 (by simp)
  · split at h2
    · exact absurd h2 (by simp)
    · split at h3
      · exact absurd h3 (by simp)
      · have e1 := Option.some.inj h1
        have e2 := Option.some.inj h2
        have e3 := Option.some.inj h3
        omega

/-- C1 witness: the amended statement instantiated at the concrete row
c1Row and its emitted record. -/
theorem c1_turnaround_additivity_witness :
    processRow probeEnv c1Row = some c1Rec ∧
    (minutesBetween c1Rec.sentDate c1Rec.deliveredDate = some c1Rec.waitingTime ∧
     minutesBetween c1Rec.deliveredDate c1Rec.approvedDate = some c1Rec.handlingTime ∧
     minutesBetween c1Rec.sentDate c1Rec.approvedDate = some c1Rec.totalTat ∧
     (c1Rec.totalTat - (c1Rec.waitingTime + c1Rec.handlingTime)).natAbs ≤ 1) :=
  ⟨by decide, c1_turnaround_additivity probeEnv c1Row c1Rec (by decide)⟩

/-! ### Row loop accounting -/

/-- The forEach loop grows the record list and the skip counter by one
row each step, whatever the accumulator. -/
theorem processRows_foldl_length (env : JsEnv) (rows : List RawRow)
    (ps : List ParsedRow) (n : ℕ) :
    (rows.foldl
      (fun acc row =>
        match processRow env row with
        | some r => (acc.1 ++ [r], acc.2)
        | none => (acc.1, acc.2 + 1)) (ps, n)).1.length +
    (rows.foldl
      (fun acc row =>
        match processRow env row with
        | some r => (acc.1 ++ [r], acc.2)
        | none => (acc.1, acc.2 + 1)) (ps, n)).2 =
    ps.length + n + rows.length := by
  induction rows generalizing ps n with
  | nil => simp
  | cons row rest ih =>
    simp only [List.foldl_cons, List.length_cons]
    cases hrow : processRow env row with
    | some r =>
      simp only [hrow]
      rw [ih (ps ++ [r]) n]
      simp
      omega
    | none =>
      simp only [hrow]
      rw [ih ps (n + 1)]
      omega

/-- C2: the skipped count plus the number of validated records produced
by the row loop equals the number of raw data rows, for every host
environment and every row list (every run that reaches the row loop,
i.e. that passed the sheet, non-empty and required-columns checks). -/
theorem c2_skipped_plus_valid (env : JsEnv) (rows : List RawRow) :
    (processRows env rows).2 + (processRows env rows).1.length = rows.length := by
  have h := processRows_foldl_length env rows [] 0
  rw [List.length_nil] at h
  rw [processRows]
  omega

/-- A loop in which every row is skipped leaves the record list empty
and counts every row. -/
theorem processRows_all_skipped (env : JsEnv) (rows : List RawRow)
    (h : ∀ row ∈ rows, processRow env row = none) :
    processRows env rows = ([], rows.length) := by
  simp only [processRows]
  have aux : ∀ (l : List RawRow) (acc : List ParsedRow × ℕ),
      (∀ row ∈ l, processRow env row = none) →
      l.foldl
        (fun acc row =>
          match processRow env row with
          | some r => (acc.1 ++ [r], acc.2)
          | none => (acc.1, acc.2 + 1)) acc = (acc.1, acc.2 + l.length) := by
    intro l
    induction l with
    | nil => intro acc _; simp
    | cons row rest ih =>
      intro acc hall
      have hrow := hall row (by simp)
      simp only [List.foldl_cons, hrow]
      rw [ih _ (fun x hx => hall x (by simp [hx]))]
      simp
      omega
  rw [aux rows ([], 0) h]
  simp

/-- C7: when every raw data row fails row-transformer validation, the
run aborts with the fatal NoValidRows message; the Except.error result
carries no records, no agent metrics and no team metrics. -/
theorem c7_no_valid_rows (env : JsEnv) (rows : List RawRow)
    (h : ∀ row ∈ rows, processRow env row = none) :
    runRows env rows = .error noValidRowsMsg := by
  rw [runRows, processRows_all_skipped env rows h]
  rfl

/-- Helper row for the C7 witness: all six cells null, so the row is
skipped for its empty text fields. -/
def nullRow : RawRow :=
  { patientCode := .null, userName := .null, doctorName := .null,
    sentDate := .null, deliveredDate := .null, approvedDate := .null }

/-- C7 witness: a one-row run in which the only row is skipped produces
exactly the fatal NoValidRows error. -/
theorem c7_no_valid_rows_witness :
    processRow probeEnv nullRow = none ∧
    runRows probeEnv [nullRow] = .error noValidRowsMsg := by
  refine ⟨by decide, c7_no_valid_rows probeEnv [nullRow] ?_⟩
  intro row hrow
  rw [List.mem_singleton] at hrow
  subst hrow
  decide

/-! ### Zero-length intervals -/

/-- C9: minutesBetween on an interval of length zero succeeds with 0;
hence a raw row whose three text fields coerce and trim to non-empty
strings and whose three date fields all normalize to the same timestamp
t is not skipped, and its validated record has
waitingTime = handlingTime = totalTurnaround = 0. -/
theorem c9_equal_timestamps (env : JsEnv) (row : RawRow) (t : ℤ)
    (hp : jsTrim (jsStringOfCell env row.patientCode) ≠ "")
    (hu : jsTrim (jsStringOfCell env row.userName) ≠ "")
    (hd : jsTrim (jsStringOfCell env row.doctorName) ≠ "")
    (hsent : parseDate env row.sentDate = some t)
    (hdel : parseDate env row.deliveredDate = some t)
    (happ : parseDate env row.approvedDate = some t) :
    minutesBetween t t = some 0 ∧
    processRow env row =
      some { patientCode := jsTrim (jsStringOfCell env row.patientCode),
             userName := jsTrim (jsStringOfCell env row.userName),
             doctorName := jsTrim (jsStringOfCell env row.doctorName),
             sentDate := t, deliveredDate := t, approvedDate := t,
             waitingTime := 0, handlingTime := 0, totalTat := 0 } := by
  have hmb : minutesBetween t t = some 0 := by
    rw [minutesBetween]
    norm_num
  refine ⟨hmb, ?_⟩
  simp only [processRow, hsent, hdel, happ, hmb]
  rw [if_neg (by simp [hp, hu, hd])]

/-- Helper row for the C9 witness: non-empty texts and the same native
date (5 ms) in all three date cells. -/
def c9Row : RawRow :=
  { patientCode := .str "a", userName := .str "b", doctorName := .str "c",
    sentDate := .date 5, deliveredDate := .date 5, approvedDate := .date 5 }

/-- C9 witness: the statement instantiated at c9Row and timestamp 5. -/
theorem c9_equal_timestamps_witness :
    jsTrim (jsStringOfCell probeEnv c9Row.patientCode) ≠ "" ∧
    parseDate probeEnv c9Row.sentDate = some 5 ∧
    minutesBetween 5 5 = some 0 ∧
    processRow probeEnv c9Row =
      some { patientCode := jsTrim (jsStringOfCell probeEnv c9Row.patientCode),
             userName := jsTrim (jsStringOfCell probeEnv c9Row.userName),
             doctorName := jsTrim (jsStringOfCell probeEnv c9Row.doctorName),
             sentDate := 5, deliveredDate := 5, approvedDate := 5,
             waitingTime := 0, handlingTime := 0, totalTat := 0 } := by
  have h := c9_equal_timestamps probeEnv c9Row 5 (by decide) (by decide)
    (by decide) (by decide) (by decide) (by decide)
  exact ⟨by decide, by decide, h.1, h.2⟩

/-! ### Numeric day counts -/

/-- parseDate on a numeric cell whose exact result is the integer
millisecond value t: the timestamp is returned iff it is within the
valid Date range. -/
theorem parseDate_num (env : JsEnv) (v : ℚ) (t : ℤ)
    (ht : (t : ℚ) = (excelEpochMs : ℚ) + v * 86400000) :
    parseDate env (.num v) = if |t| ≤ maxTimeMs then some t else none := by
  have harg : (excelEpochMs : ℚ) + v * (24 * 60 * 60 * 1000) = (t : ℚ) := by
    rw [ht]
    norm_num
  simp only [parseDate, harg, timeClip]
  have hcast : (|(t : ℚ)| ≤ (maxTimeMs : ℚ)) ↔ |t| ≤ maxTimeMs := by
    rw [← Int.cast_abs]
    exact_mod_cast Iff.rfl
  have htrunc : jsTrunc (t : ℚ) = t := by
    rw [jsTrunc]
    split
    · exact Int.floor_intCast t
    · exact Int.ceil_intCast t
  by_cases hle : |t| ≤ maxTimeMs
  · rw [if_pos (hcast.mpr hle), if_pos hle, htrunc]
  · rw [if_neg (fun hc => hle (hcast.mp hc)), if_neg hle]

/-- C4: for every numeric day count v ≥ 0 whose exact value
epoch + v × 86,400,000 ms is the integer t, the date normalizer returns
exactly t when t is a valid timestamp and rejects the value otherwise. -/
theorem c4_day_count_epoch (env : JsEnv) (v : ℚ) (_hv : 0 ≤ v) (t : ℤ)
    (ht : (t : ℚ) = (excelEpochMs : ℚ) + v * 86400000) :
    parseDate env (.num v) = if |t| ≤ maxTimeMs then some t else none :=
  parseDate_num env v t ht

/-- C4 witness: day count 45000 maps to the exact timestamp
1678838400000 ms (March 15, 2023 UTC). -/
theorem c4_day_count_epoch_witness :
    (0 : ℚ) ≤ 45000 ∧
    ((1678838400000 : ℤ) : ℚ) = (excelEpochMs : ℚ) + 45000 * 86400000 ∧
    parseDate probeEnv (.num 45000) = some 1678838400000 := by
  refine ⟨by norm_num, by norm_num [excelEpochMs], ?_⟩
  rw [c4_day_count_epoch probeEnv 45000 (by norm_num) 1678838400000
    (by norm_num [excelEpochMs])]
  rw [if_pos (by decide)]

/-- C10: parseDate accepts any finite numeric day count, negative ones
included; whenever the exact result is an integer timestamp in the valid
range, it is returned rather than rejected, and a negative day count
lands strictly before the December 30, 1899 epoch. -/
theorem c10_negative_day_count (env : JsEnv) (v : ℚ) (t : ℤ)
    (ht : (t : ℚ) = (excelEpochMs : ℚ) + v * 86400000)
    (hrange : |t| ≤ maxTimeMs) :
    parseDate env (.num v) = some t ∧ (v < 0 → t < excelEpochMs) := by
  refine ⟨by rw [parseDate_num env v t ht, if_pos hrange], fun hv => ?_⟩
  have hq : (t : ℚ) < (excelEpochMs : ℚ) := by
    rw [ht]
    have hneg : v * 86400000 < 0 := mul_neg_of_neg_of_pos hv (by norm_num)
    linarith
  exact_mod_cast hq

/-- C10 witness: day count −1 is accepted and yields December 29, 1899
UTC, one day before the epoch. -/
theorem c10_negative_day_count_witness :
    ((-2209248000000 : ℤ) : ℚ) = (excelEpochMs : ℚ) + (-1) * 86400000 ∧
    |(-2209248000000 : ℤ)| ≤ maxTimeMs ∧
    parseDate probeEnv (.num (-1)) = some (-2209248000000) ∧
    (-2209248000000 : ℤ) < excelEpochMs := by
  have h := c10_negative_day_count probeEnv (-1) (-2209248000000)
    (by norm_num [excelEpochMs]) (by decide)
  exact ⟨by norm_num [excelEpochMs], by decide, h.1, h.2 (by norm_num)⟩

/-! ### Arabic-Indic digit normalization -/

/-- Replacing a digit never produces an Arabic-Indic digit again, so the
per-character replacement is idempotent. -/
theorem replaceDigitChar_idem (c : Char) :
    replaceDigitChar (replaceDigitChar c) = replaceDigitChar c := by
  by_cases hc : c ∈ arabicIndicDigits
  · fin_cases hc <;> decide
  · simp [replaceDigitChar, hc]

/-- The digit replacement maps non-whitespace to non-whitespace and
fixes everything else, so it preserves the whitespace predicate. -/
theorem isJsWhitespace_replaceDigitChar (c : Char) :
    isJsWhitespace (replaceDigitChar c) = isJsWhitespace c := by
  by_cases hc : c ∈ arabicIndicDigits
  · fin_cases hc <;> decide
  · rw [replaceDigitChar, if_neg hc]

/-- normalizeDigits is idempotent. -/
theorem normalizeDigits_idem (s : String) :
    normalizeDigits (normalizeDigits s) = normalizeDigits s := by
  rw [normalizeDigits, normalizeDigits]
  show String.mk ((s.data.map replaceDigitChar).map replaceDigitChar) = _
  rw [List.map_map]
  congr 1
  exact List.map_congr_left fun c _ => replaceDigitChar_idem c

/-- Trimming commutes with the per-character digit replacement. -/
theorem jsTrim_normalizeDigits (s : String) :
    jsTrim (normalizeDigits s) = normalizeDigits (jsTrim s) := by
  rw [jsTrim, jsTrim, normalizeDigits, normalizeDigits]
  show String.mk (jsTrimList (s.data.map replaceDigitChar)) = _
  congr 1
  have hp : (isJsWhitespace ∘ replaceDigitChar) = isJsWhitespace := by
    funext c
    exact isJsWhitespace_replaceDigitChar c
  rw [jsTrimList, jsTrimList, List.dropWhile_map, hp, ← List.map_reverse,
    List.dropWhile_map, hp, ← List.map_reverse]

/-- C8: a text cell and the cell obtained by replacing each of its
Arabic-Indic digit characters (٠–٩) with the corresponding ASCII digit
normalize to the same result: the same canonical timestamp, or
unparseable for both — for every host date parser. -/
theorem c8_digit_normalization (env : JsEnv) (s : String) :
    parseDate env (.str (normalizeDigits s)) = parseDate env (.str s) := by
  have hkey : normalizeDigits (jsTrim (normalizeDigits s)) =
      normalizeDigits (jsTrim s) := by
    rw [jsTrim_normalizeDigits, normalizeDigits_idem]
  simp only [parseDate, hkey]

/-! ### Peak hours -/

/-- The descending-count comparator used on the hour buckets is
transitive. -/
theorem peakLe_trans (a b c : PeakEntry)
    (h1 : decide (b.count ≤ a.count) = true)
    (h2 : decide (c.count ≤ b.count) = true) :
    decide (c.count ≤ a.count) = true := by
  simp only [decide_eq_true_eq] at h1 h2 ⊢
  omega

/-- The descending-count comparator is total. -/
theorem peakLe_total (a b : PeakEntry) :
    (decide (b.count ≤ a.count) || decide (a.count ≤ b.count)) = true := by
  simp only [Bool.or_eq_true, decide_eq_true_eq]
  omega

/-- C5: for every non-empty validated-record set, peakHours has at most
3 entries, is sorted descending by count, and has no zero-count entry. -/
theorem c5_peak_hours (env : JsEnv) (parsed : List ParsedRow)
    (_hne : parsed ≠ []) :
    (computeTeam env parsed).peakHours.length ≤ 3 ∧
    List.Sorted (fun a b => b.count ≤ a.count)
      (computeTeam env parsed).peakHours ∧
    ∀ e ∈ (computeTeam env parsed).peakHours, e.count ≠ 0 := by
  have hsorted : List.Pairwise
      (fun a b : PeakEntry => decide (b.count ≤ a.count) = true)
      ((peakHoursAll (buildHist env parsed)).mergeSort
        (fun a b => decide (b.count ≤ a.count))) :=
    List.sorted_mergeSort peakLe_trans peakLe_total
      (peakHoursAll (buildHist env parsed))
  refine ⟨?_, ?_, ?_⟩
  · calc (computeTeam env parsed).peakHours.length
        ≤ (((peakHoursAll (buildHist env parsed)).mergeSort
            (fun a b => decide (b.count ≤ a.count))).take 3).length :=
          List.length_filter_le _ _
      _ ≤ 3 := List.length_take_le _ _
  · have hsub : (computeTeam env parsed).peakHours.Sublist
        ((peakHoursAll (buildHist env parsed)).mergeSort
          (fun a b => decide (b.count ≤ a.count))) :=
      (List.filter_sublist _).trans (List.take_sublist _ _)
    exact (List.Pairwise.sublist hsub hsorted).imp fun h => by simpa using h
  · intro e he
    have hmem := List.mem_filter.mp he
    have := of_decide_eq_true hmem.2
    omega

/-- Singleton record used to instantiate the aggregate witnesses. -/
def sampleRec : ParsedRow :=
  { patientCode := "a", userName := "b", doctorName := "c",
    sentDate := 0, deliveredDate := 0, approvedDate := 0,
    waitingTime := 0, handlingTime := 0, totalTat := 0 }

/-- C5 witness: the peak-hours properties at the singleton record set. -/
theorem c5_peak_hours_witness :
    ([sampleRec] : List ParsedRow) ≠ [] ∧
    ((computeTeam probeEnv [sampleRec]).peakHours.length ≤ 3 ∧
     List.Sorted (fun a b => b.count ≤ a.count)
       (computeTeam probeEnv [sampleRec]).peakHours ∧
     ∀ e ∈ (computeTeam probeEnv [sampleRec]).peakHours, e.count ≠ 0) :=
  ⟨by simp, c5_peak_hours probeEnv [sampleRec] (by simp)⟩

/-! ### Agent metrics accounting -/

/-- Keys of the agent map, in insertion order. -/
def accKeys (m : List (String × AgentAcc)) : List String :=
  m.map Prod.fst

/-- Sum of the per-agent request totals of the agent map. -/
def accTotals (m : List (String × AgentAcc)) : ℕ :=
  (m.map (fun e => e.2.total)).sum

/-- mapSet leaves the key list unchanged on an existing key and appends
the key otherwise. -/
theorem accKeys_mapSet (m : List (String × AgentAcc)) (k : String)
    (v : AgentAcc) :
    accKeys (mapSet m k v) =
      if k ∈ accKeys m then accKeys m else accKeys m ++ [k] := by
  induction m with
  | nil => simp [mapSet, accKeys]
  | cons e rest ih =>
    obtain ⟨k0, v0⟩ := e
    by_cases h : k0 = k
    · subst h
      simp [mapSet, accKeys]
    · rw [mapSet, if_neg h]
      rw [show accKeys ((k0, v0) :: mapSet rest k v) =
        k0 :: accKeys (mapSet rest k v) from rfl]
      rw [ih]
      rw [show accKeys ((k0, v0) :: rest) = k0 :: accKeys rest from rfl]
      by_cases hk : k ∈ accKeys rest
      · rw [if_pos hk, if_pos (List.mem_cons_of_mem _ hk)]
      · rw [if_neg hk, if_neg ?_, List.cons_append]
        intro hmem
        rcases List.mem_cons.mp hmem with heq | hmem2
        · exact h heq.symm
        · exact hk hmem2

/-- mapSet on a key absent from the map adds the total of the new entry. -/
theorem accTotals_mapSet_none (m : List (String × AgentAcc)) (k : String)
    (v : AgentAcc) (h : m.lookup k = none) :
    accTotals (mapSet m k v) = accTotals m + v.total := by
  induction m with
  | nil => simp [mapSet, accTotals]
  | cons e rest ih =>
    obtain ⟨k0, v0⟩ := e
    rw [List.lookup_cons] at h
    by_cases hk : k = k0
    · rw [beq_iff_eq.mpr hk] at h
      exact absurd h (by simp)
    · rw [show (k == k0) = false by simpa using hk] at h
      simp only at h
      rw [mapSet, if_neg (fun he => hk he.symm)]
      simp only [accTotals, List.map_cons, List.sum_cons] at *
      rw [ih h]
      omega

/-- mapSet on a key present in the map replaces the total of that entry. -/
theorem accTotals_mapSet_found (m : List (String × AgentAcc)) (k : String)
    (v a : AgentAcc) (h : m.lookup k = some a) :
    accTotals (mapSet m k v) + a.total = accTotals m + v.total := by
  induction m with
  | nil => exact absurd h (by simp)
  | cons e rest ih =>
    obtain ⟨k0, v0⟩ := e
    rw [List.lookup_cons] at h
    by_cases hk : k = k0
    · rw [beq_iff_eq.mpr hk] at h
      simp only at h
      have ha := Option.some.inj h
      subst ha
      subst hk
      rw [mapSet, if_pos rfl]
      simp only [accTotals, List.map_cons, List.sum_cons]
      omega
    · rw [show (k == k0) = false by simpa using hk] at h
      simp only at h
      rw [mapSet, if_neg (fun he => hk he.symm)]
      simp only [accTotals, List.map_cons, List.sum_cons] at *
      have := ih h
      omega

/-- One aggregation step increments the summed totals by exactly one. -/
theorem accTotals_stepAgent (m : List (String × AgentAcc)) (r : ParsedRow) :
    accTotals (stepAgent m r) = accTotals m + 1 := by
  rw [stepAgent]
  cases h : m.lookup r.userName with
  | none =>
    simp only [Option.getD_none]
    rw [accTotals_mapSet_none m r.userName _ h]
  | some a =>
    simp only [Option.getD_some]
    have := accTotals_mapSet_found m r.userName
      { total := a.total + 1,
        handlingSum := a.handlingSum + r.handlingTime,
        handlingSlaCount :=
          a.handlingSlaCount + (if r.handlingTime ≤ 20 then 1 else 0) } a h
    dsimp only at this
    omega

/-- One aggregation step keeps the key list or appends the new name. -/
theorem accKeys_stepAgent (m : List (String × AgentAcc)) (r : ParsedRow) :
    accKeys (stepAgent m r) =
      if r.userName ∈ accKeys m then accKeys m
      else accKeys m ++ [r.userName] := by
  rw [stepAgent]
  exact accKeys_mapSet m r.userName _

/-- The summed totals of the folded agent map count the records. -/
theorem accTotals_foldl (parsed : List ParsedRow)
    (m : List (String × AgentAcc)) :
    accTotals (parsed.foldl stepAgent m) = accTotals m + parsed.length := by
  induction parsed generalizing m with
  | nil => simp
  | cons r rest ih =>
    rw [List.foldl_cons, ih (stepAgent m r), accTotals_stepAgent]
    simp
    omega

/-- Folding more records preserves distinctness of the key list. -/
theorem accKeys_foldl_nodup (parsed : List ParsedRow)
    (m : List (String × AgentAcc)) (h : (accKeys m).Nodup) :
    (accKeys (parsed.foldl stepAgent m)).Nodup := by
  induction parsed generalizing m with
  | nil => exact h
  | cons r rest ih =>
    rw [List.foldl_cons]
    refine ih (stepAgent m r) ?_
    rw [accKeys_stepAgent]
    by_cases hmem : r.userName ∈ accKeys m
    · rw [if_pos hmem]
      exact h
    · rw [if_neg hmem]
      simp [List.nodup_append, h, hmem]

/-- A name is a key of the folded agent map iff it was a key already or
appears as a userName among the folded records. -/
theorem accKeys_foldl_mem (parsed : List ParsedRow)
    (m : List (String × AgentAcc)) (u : String) :
    u ∈ accKeys (parsed.foldl stepAgent m) ↔
      u ∈ accKeys m ∨ u ∈ parsed.map (fun r => r.userName) := by
  induction parsed generalizing m with
  | nil => simp
  | cons r rest ih =>
    rw [List.foldl_cons, ih (stepAgent m r), accKeys_stepAgent]
    by_cases hmem : r.userName ∈ accKeys m
    · rw [if_pos hmem]
      simp only [List.map_cons, List.mem_cons]
      constructor
      · tauto
      · rintro (h | heq | h)
        · exact Or.inl h
        · subst heq
          exact Or.inl hmem
        · exact Or.inr h
    · rw [if_neg hmem]
      simp only [List.mem_append, List.mem_singleton, List.map_cons,
        List.mem_cons]
      tauto

/-- C6: for every non-empty validated-record set, the produced agent
metrics carry request totals summing to the record count, and there is
exactly one metrics entry per distinct userName of the record set. -/
theorem c6_agent_totals (parsed : List ParsedRow) (_hne : parsed ≠ []) :
    ((computeAgents parsed).map (fun a => a.totalRequests)).sum =
      parsed.length ∧
    ((computeAgents parsed).map (fun a => a.userName)).Nodup ∧
    ∀ u : String,
      u ∈ (computeAgents parsed).map (fun a => a.userName) ↔
        u ∈ parsed.map (fun r => r.userName) := by
  have hperm :
      (computeAgents parsed).Perm
        ((buildAgentMap parsed).map fun e =>
          ({ userName := e.1, totalRequests := e.2.total,
             averageHandlingTime := (e.2.handlingSum : ℚ) / (e.2.total : ℚ),
             handlingSla :=
               ((e.2.handlingSlaCount : ℚ) / (e.2.total : ℚ)) * 100 }
            : AgentMetrics)) :=
    List.mergeSort_perm _ _
  have htot :
      ((buildAgentMap parsed).map fun e =>
          ({ userName := e.1, totalRequests := e.2.total,
             averageHandlingTime := (e.2.handlingSum : ℚ) / (e.2.total : ℚ),
             handlingSla :=
               ((e.2.handlingSlaCount : ℚ) / (e.2.total : ℚ)) * 100 }
            : AgentMetrics)).map (fun a => a.totalRequests) =
        (buildAgentMap parsed).map (fun e => e.2.total) := by
    rw [List.map_map]
    rfl
  have hnames :
      ((buildAgentMap parsed).map fun e =>
          ({ userName := e.1, totalRequests := e.2.total,
             averageHandlingTime := (e.2.handlingSum : ℚ) / (e.2.total : ℚ),
             handlingSla :=
               ((e.2.handlingSlaCount : ℚ) / (e.2.total : ℚ)) * 100 }
            : AgentMetrics)).map (fun a => a.userName) =
        accKeys (buildAgentMap parsed) := by
    rw [List.map_map]
    rfl
  refine ⟨?_, ?_, ?_⟩
  · rw [(hperm.map (fun a => a.totalRequests)).sum_eq, htot]
    have := accTotals_foldl parsed []
    rw [buildAgentMap]
    simpa [accTotals] using this
  · rw [(hperm.map (fun a => a.userName)).nodup_iff, hnames]
    exact accKeys_foldl_nodup parsed [] (by simp [accKeys])
  · intro u
    rw [(hperm.map (fun a => a.userName)).mem_iff, hnames, buildAgentMap,
      accKeys_foldl_mem parsed [] u]
    simp [accKeys]

/-- C6 witness: the agent-metrics properties at the singleton record
set. -/
theorem c6_agent_totals_witness :
    ([sampleRec] : List ParsedRow) ≠ [] ∧
    (((computeAgents [sampleRec]).map (fun a => a.totalRequests)).sum =
       ([sampleRec] : List ParsedRow).length ∧
     ((computeAgents [sampleRec]).map (fun a => a.userName)).Nodup ∧
     ∀ u : String,
       u ∈ (computeAgents [sampleRec]).map (fun a => a.userName) ↔
         u ∈ ([sampleRec] : List ParsedRow).map (fun r => r.userName)) :=
  ⟨by simp, c6_agent_totals [sampleRec] (by simp)⟩

end TaT
